import Mathlib

/-!
Shallow embedding of `lancedb/rerankers/base.py` (class `Reranker`).

Tables (`pyarrow.Table`) are modelled as a list of column names plus a list
of rows; a row is an association list from column name to cell value, and a
cell missing from a row reads as null (this models the permissive schema
promotion that `pa.concat_tables` performs with `promote=True` /
`promote_options="default"`).  Python exceptions are modelled with `Except`.
-/

namespace Rerankers

/-- A cell value of a result table: integers, strings, or null. -/
inductive Value where
  | int : Int → Value
  | str : String → Value
  | null : Value
deriving DecidableEq

/-- A row of a table: an association list from column name to value. -/
abbrev Row := List (String × Value)

/-- Reading a cell of a row by column name; a column absent from the row
reads as null (schema promotion fills missing columns with nulls). -/
def getCell (r : Row) (c : String) : Value :=
  match r.lookup c with
  | some v => v
  | none => Value.null

/-- A columnar table: the schema (column names) and the rows. -/
structure Table where
  cols : List String
  rows : List Row
deriving DecidableEq

/-- The column of a table as a list of values, in row order
(`pa.Table.column`). -/
def Table.column (t : Table) (c : String) : List Value :=
  t.rows.map (fun r => getCell r c)

/-- The two spellings of the permissive-promotion argument to
`pa.concat_tables`: `{"promote": True}` for pyarrow major ≤ 13 and
`{"promote_options": "default"}` otherwise.  Both select the same
permissive schema-unification behaviour. -/
inductive ConcatArgs where
  | promote : ConcatArgs
  | promoteDefault : ConcatArgs
deriving DecidableEq

/-- `pa.concat_tables([t1, t2], **args)` with permissive promotion: the
schema is the union of the schemas (columns of `t1` first, then the new
columns of `t2`), and the rows are the rows of `t1` followed by the rows of
`t2`; cells of columns missing from a row read as null via `getCell`.
Both `args` variants perform the same permissive promotion. -/
def concat_tables (t1 t2 : Table) (args : ConcatArgs) : Table :=
  match args with
  | ConcatArgs.promote =>
      Table.mk (t1.cols ++ t2.cols.filter (fun c => decide (c ∉ t1.cols)))
        (t1.rows ++ t2.rows)
  | ConcatArgs.promoteDefault =>
      Table.mk (t1.cols ++ t2.cols.filter (fun c => decide (c ∉ t1.cols)))
        (t1.rows ++ t2.rows)

/-- The boolean mask built by
`mask = np.full(n, False); _, idx = np.unique(row_id, return_index=True);
mask[idx] = True`: entry `i` is `true` exactly when position `i` is the
first occurrence of its value (`np.unique` with `return_index` returns the
indices of the first occurrences of the unique values).  The accumulator
`seen` holds the values already encountered. -/
def firstOccMaskAux (seen : List Value) : List Value → List Bool
  | [] => []
  | x :: xs => (if x ∈ seen then false else true) :: firstOccMaskAux (x :: seen) xs

/-- The first-occurrence mask of a value list (accumulator starts empty). -/
def firstOccMask (xs : List Value) : List Bool :=
  firstOccMaskAux [] xs

/-- `table.filter(mask)`: keep the entries whose mask bit is `true`. -/
def filterMask {α : Type} : List α → List Bool → List α
  | [], _ => []
  | _ :: _, [] => []
  | x :: xs, b :: bs => if b then x :: filterMask xs bs else filterMask xs bs

/-- The `return_score` argument: a Python string or `None` (the parameter
is annotated `str` but any value may be passed at runtime). -/
inductive PyStrOpt where
  | s : String → PyStrOpt
  | pyNone : PyStrOpt
deriving DecidableEq

/-- The Python exceptions this module can raise. -/
inductive PyError where
  | valueError : String → PyError
  | notImplementedError : String → PyError
  | typeError : String → PyError
  | keyError : String → PyError
deriving DecidableEq

deriving instance DecidableEq for Except

/-- The state of a constructed `Reranker`: the stored `self.score` and the
precomputed `self._concat_tables_args`. -/
structure Reranker where
  score : PyStrOpt
  concat_tables_args : ConcatArgs
deriving DecidableEq

/-- `Reranker.__init__(self, return_score)`: raise
`ValueError("score must be either 'relevance' or 'all'")` unless
`return_score` is `"relevance"` or `"all"`; on success store the option
unchanged and select the concat-tables arguments from the pyarrow major
version (`promote=True` when the major version is ≤ 13). -/
def Reranker.init (return_score : PyStrOpt) (arrow_major : Nat) :
    Except PyError Reranker :=
  if return_score ∉ [PyStrOpt.s "relevance", PyStrOpt.s "all"] then
    Except.error (PyError.valueError "score must be either 'relevance' or 'all'")
  else
    Except.ok (Reranker.mk return_score
      (if arrow_major ≤ 13 then ConcatArgs.promote else ConcatArgs.promoteDefault))

/-- `Reranker(...)` with the `return_score` argument omitted: the Python
default parameter value `"relevance"` is used. -/
def Reranker.init_default (arrow_major : Nat) : Except PyError Reranker :=
  Reranker.init (PyStrOpt.s "relevance") arrow_major

/-- `Reranker.rerank_vector(self, query, vector_results)`: the base class
unconditionally raises
`NotImplementedError(f"{self.__class__.__name__} does not implement rerank_vector")`.
The concrete class name `self.__class__.__name__` is passed explicitly. -/
def Reranker.rerank_vector (self_class_name : String) (query : String)
    (vector_results : Table) : Except PyError Table :=
  Except.error (PyError.notImplementedError
    (self_class_name ++ " does not implement rerank_vector"))

/-- `Reranker.rerank_fts(self, query, fts_results)`: the base class
unconditionally raises
`NotImplementedError(f"{self.__class__.__name__} does not implement rerank_fts")`. -/
def Reranker.rerank_fts (self_class_name : String) (query : String)
    (fts_results : Table) : Except PyError Table :=
  Except.error (PyError.notImplementedError
    (self_class_name ++ " does not implement rerank_fts"))

/-- The methods of `Reranker` marked `@abstractmethod` in the source:
exactly `rerank_hybrid`. -/
def Reranker.abstractmethods : List String := ["rerank_hybrid"]

/-- A (sub)class of `Reranker`: its name and the set of methods it
overrides with an implementation.  The abstract base itself is the
subclass with no overrides. -/
structure SubclassDef where
  name : String
  overriddenMethods : List String
deriving DecidableEq

/-- Python's ABC instantiation rule applied to `Reranker`'s abstract-method
set: instantiating a class raises `TypeError` when some method marked
`@abstractmethod` on the base has not been overridden. -/
def instantiateSubclass (c : SubclassDef) : Except PyError SubclassDef :=
  if Reranker.abstractmethods.all (fun m => decide (m ∈ c.overriddenMethods)) then
    Except.ok c
  else
    Except.error (PyError.typeError
      ("Can't instantiate abstract class " ++ c.name ++ " with abstract method rerank_hybrid"))

/-- `Reranker.merge_results(self, vector_results, fts_results)`:
concatenate the two tables with the stored concat arguments, read the
`_rowid` column (a `KeyError` when the combined table has no such column),
build the first-occurrence mask with `np.unique(..., return_index=True)`,
and filter the combined table by the mask. -/
def Reranker.merge_results (self : Reranker) (vector_results fts_results : Table) :
    Except PyError Table :=
  if "_rowid" ∈ (concat_tables vector_results fts_results self.concat_tables_args).cols then
    Except.ok (Table.mk (concat_tables vector_results fts_results self.concat_tables_args).cols
      (filterMask (concat_tables vector_results fts_results self.concat_tables_args).rows
        (firstOccMask
          ((concat_tables vector_results fts_results self.concat_tables_args).column "_rowid"))))
  else
    Except.error (PyError.keyError "_rowid")

/- Concrete sample data used by the closed scenario and the witnesses. -/

/-- A reranker as constructed with `return_score="relevance"` on a
post-13 pyarrow. -/
def reranker0 : Reranker :=
  Reranker.mk (PyStrOpt.s "relevance") ConcatArgs.promoteDefault

/-- Sample vector-search results: ids 1, 2, 3 with payloads v1, v2, v3. -/
def vres : Table :=
  Table.mk ["_rowid", "payload"]
    [ [("_rowid", Value.int 1), ("payload", Value.str "v1")]
    , [("_rowid", Value.int 2), ("payload", Value.str "v2")]
    , [("_rowid", Value.int 3), ("payload", Value.str "v3")] ]

/-- Sample FTS results: ids 2, 3, 4 with payloads f2, f3, f4. -/
def fres : Table :=
  Table.mk ["_rowid", "payload"]
    [ [("_rowid", Value.int 2), ("payload", Value.str "f2")]
    , [("_rowid", Value.int 3), ("payload", Value.str "f3")]
    , [("_rowid", Value.int 4), ("payload", Value.str "f4")] ]

/-- The expected merge of `vres` and `fres`: ids 1–3 from the vector side,
id 4 from the FTS side. -/
def merged1234 : Table :=
  Table.mk ["_rowid", "payload"]
    [ [("_rowid", Value.int 1), ("payload", Value.str "v1")]
    , [("_rowid", Value.int 2), ("payload", Value.str "v2")]
    , [("_rowid", Value.int 3), ("payload", Value.str "v3")]
    , [("_rowid", Value.int 4), ("payload", Value.str "f4")] ]

/- Helper lemmas about the mask/filter machinery. -/

/-- The first-occurrence mask has the same length as its value list. -/
theorem length_firstOccMaskAux (seen xs : List Value) :
    (firstOccMaskAux seen xs).length = xs.length := by
  induction xs generalizing seen with
  | nil => rfl
  | cons x xs ih => simp [firstOccMaskAux, ih]

/-- An empty mask filters every list to the empty list. -/
theorem filterMask_nil_mask {α : Type} (xs : List α) : filterMask xs [] = [] := by
  cases xs <;> rfl

/-- Every mask filters the empty list to the empty list. -/
theorem filterMask_nil {α : Type} (bs : List Bool) : filterMask ([] : List α) bs = [] := rfl

/-- A `true` mask bit keeps the head. -/
theorem filterMask_cons_true {α : Type} (x : α) (xs : List α) (bs : List Bool) :
    filterMask (x :: xs) (true :: bs) = x :: filterMask xs bs := rfl

/-- A `false` mask bit drops the head. -/
theorem filterMask_cons_false {α : Type} (x : α) (xs : List α) (bs : List Bool) :
    filterMask (x :: xs) (false :: bs) = filterMask xs bs := rfl

/-- Mask head on a value already seen. -/
theorem firstOccMaskAux_cons_mem (x : Value) (seen xs : List Value) (h : x ∈ seen) :
    firstOccMaskAux seen (x :: xs) = false :: firstOccMaskAux (x :: seen) xs := by
  simp [firstOccMaskAux, h]

/-- Mask head on a value not yet seen. -/
theorem firstOccMaskAux_cons_not_mem (x : Value) (seen xs : List Value) (h : x ∉ seen) :
    firstOccMaskAux seen (x :: xs) = true :: firstOccMaskAux (x :: seen) xs := by
  simp [firstOccMaskAux, h]

/-- Mapping a function commutes with filtering by a mask. -/
theorem map_filterMask {α β : Type} (f : α → β) :
    ∀ (xs : List α) (bs : List Bool),
      (filterMask xs bs).map f = filterMask (xs.map f) bs
  | [], bs => by cases bs <;> rfl
  | _ :: _, [] => rfl
  | x :: xs, b :: bs => by
    cases b
    · rw [filterMask_cons_false, List.map_cons, filterMask_cons_false]
      exact map_filterMask f xs bs
    · rw [filterMask_cons_true, List.map_cons, List.map_cons, filterMask_cons_true,
        map_filterMask f xs bs]

/-- Filtering a value list by its own first-occurrence mask keeps each
value not in `seen` exactly once and drops values already in `seen`. -/
theorem count_filterMask_firstOccAux (xs : List Value) :
    ∀ (seen : List Value) (v : Value),
      (filterMask xs (firstOccMaskAux seen xs)).count v
        = if v ∈ xs ∧ v ∉ seen then 1 else 0 := by
  induction xs with
  | nil => intro seen v; simp [filterMask, firstOccMaskAux]
  | cons x xs ih =>
    intro seen v
    by_cases hx : x ∈ seen
    · rw [firstOccMaskAux_cons_mem x seen xs hx, filterMask_cons_false, ih (x :: seen) v]
      by_cases hv : v = x
      · subst hv
        simp [hx]
      · simp [List.mem_cons, hv]
    · rw [firstOccMaskAux_cons_not_mem x seen xs hx, filterMask_cons_true]
      by_cases hv : v = x
      · subst hv
        rw [List.count_cons_self, ih (v :: seen) v]
        simp [hx]
      · rw [List.count_cons_of_ne hv, ih (x :: seen) v]
        simp [List.mem_cons, hv]

/-- Filtering a value list by its first-occurrence mask keeps each value
present exactly once. -/
theorem count_filterMask_firstOcc (xs : List Value) (v : Value) :
    (filterMask xs (firstOccMask xs)).count v = if v ∈ xs then 1 else 0 := by
  rw [firstOccMask, count_filterMask_firstOccAux xs [] v]
  simp

/-- Filtering by a mask yields a sublist. -/
theorem filterMask_sublist {α : Type} :
    ∀ (xs : List α) (bs : List Bool), (filterMask xs bs).Sublist xs
  | [], bs => by cases bs <;> exact List.Sublist.refl _
  | _ :: _, [] => List.nil_sublist _
  | x :: xs, b :: bs => by
    cases b
    · rw [filterMask_cons_false]
      exact (filterMask_sublist xs bs).cons x
    · rw [filterMask_cons_true]
      exact (filterMask_sublist xs bs).cons₂ x

/-- Filtering a concatenation by a mask splits into filtering each part by
the corresponding piece of the mask. -/
theorem filterMask_append {α : Type} :
    ∀ (xs ys : List α) (bs : List Bool),
      filterMask (xs ++ ys) bs
        = filterMask xs (bs.take xs.length) ++ filterMask ys (bs.drop xs.length)
  | [], ys, bs => by simp [filterMask_nil]
  | x :: xs, ys, [] => by
    simp [filterMask_nil_mask]
  | x :: xs, ys, b :: bs => by
    cases b
    · rw [List.cons_append, filterMask_cons_false, List.length_cons, List.take_succ_cons,
        filterMask_cons_false, List.drop_succ_cons, filterMask_append xs ys bs]
    · rw [List.cons_append, filterMask_cons_true, List.length_cons, List.take_succ_cons,
        filterMask_cons_true, List.drop_succ_cons, filterMask_append xs ys bs, List.cons_append]

/-- On a duplicate-free value list disjoint from `seen`, the
first-occurrence mask is all `true`. -/
theorem firstOccMaskAux_of_nodup (xs : List Value) :
    ∀ (seen : List Value), xs.Nodup → (∀ x ∈ xs, x ∉ seen) →
      firstOccMaskAux seen xs = List.replicate xs.length true := by
  induction xs with
  | nil => intro seen _ _; rfl
  | cons x xs ih =>
    intro seen hnd hdisj
    have hx : x ∉ seen := hdisj x (List.mem_cons_self x xs)
    have hnd' : xs.Nodup := (List.nodup_cons.mp hnd).2
    have hxx : x ∉ xs := (List.nodup_cons.mp hnd).1
    have hdisj' : ∀ y ∈ xs, y ∉ x :: seen := by
      intro y hy
      simp only [List.mem_cons, not_or]
      exact ⟨fun h => hxx (h ▸ hy), hdisj y (List.mem_cons_of_mem x hy)⟩
    simp [firstOccMaskAux, hx, ih (x :: seen) hnd' hdisj', List.replicate_succ]

/-- Filtering by an all-`true` mask of matching length is the identity. -/
theorem filterMask_replicate_true {α : Type} :
    ∀ (xs : List α), filterMask xs (List.replicate xs.length true) = xs
  | [] => rfl
  | x :: xs => by
    simp [List.replicate_succ, filterMask, filterMask_replicate_true xs]

/-- Filtering the rows by the first-occurrence mask of their keys and then
selecting the rows with key `v` yields the first row with key `v`, provided
`v` is not already in `seen` (and nothing, otherwise). -/
theorem filter_filterMask_firstOccAux (key : Row → Value) (rows : List Row) :
    ∀ (seen : List Value) (v : Value),
      (filterMask rows (firstOccMaskAux seen (rows.map key))).filter
          (fun r => decide (key r = v))
        = if v ∈ seen then [] else (rows.find? (fun r => decide (key r = v))).toList := by
  induction rows with
  | nil =>
    intro seen v
    by_cases hv : v ∈ seen <;> simp [filterMask, firstOccMaskAux, hv]
  | cons r rows ih =>
    intro seen v
    rw [List.map_cons]
    by_cases hk : key r ∈ seen
    · rw [firstOccMaskAux_cons_mem _ _ _ hk, filterMask_cons_false, ih (key r :: seen) v]
      by_cases hv : v = key r
      · subst hv
        simp [hk]
      · have hkr : decide (key r = v) = false := by
          simp only [decide_eq_false_iff_not]
          exact fun h => hv (Eq.symm h)
        by_cases hvs : v ∈ seen
        · simp [hvs, hv]
        · simp [hvs, hv, List.find?_cons, hkr]
    · rw [firstOccMaskAux_cons_not_mem _ _ _ hk, filterMask_cons_true, List.filter_cons,
        ih (key r :: seen) v]
      by_cases hv : v = key r
      · subst hv
        simp [hk, List.find?_cons]
      · have hkr : decide (key r = v) = false := by
          simp only [decide_eq_false_iff_not]
          exact fun h => hv (Eq.symm h)
        by_cases hvs : v ∈ seen
        · simp [hvs, hv, hkr]
        · simp [hvs, hv, List.find?_cons, hkr]

/-- Specialisation of `filter_filterMask_firstOccAux` to the empty
accumulator: the deduplicated rows with key `v` are exactly the first row
with key `v`. -/
theorem filter_filterMask_firstOcc (key : Row → Value) (rows : List Row) (v : Value) :
    (filterMask rows (firstOccMask (rows.map key))).filter (fun r => decide (key r = v))
      = (rows.find? (fun r => decide (key r = v))).toList := by
  rw [firstOccMask, filter_filterMask_firstOccAux key rows [] v]
  simp

/-- `find?` on a concatenation takes the result of the first part when the
first part already contains a match. -/
theorem find?_append_of_isSome {α : Type} (p : α → Bool) :
    ∀ (l1 l2 : List α), (l1.find? p).isSome → (l1 ++ l2).find? p = l1.find? p
  | [], _, h => by simp [List.find?] at h
  | x :: l1, l2, h => by
    by_cases hx : p x = true
    · simp [List.find?_cons, hx]
    · rw [List.find?_cons] at h
      rw [List.cons_append, List.find?_cons, List.find?_cons]
      simp only [hx, Bool.false_eq_true, if_false] at h ⊢
      exact find?_append_of_isSome p l1 l2 h

/-- The concatenated table, for either argument variant: union schema and
appended rows. -/
theorem concat_tables_eq (t1 t2 : Table) (args : ConcatArgs) :
    concat_tables t1 t2 args
      = Table.mk (t1.cols ++ t2.cols.filter (fun c => decide (c ∉ t1.cols)))
          (t1.rows ++ t2.rows) := by
  cases args <;> rfl

/-- The column of the concatenated table is the concatenation of the
columns. -/
theorem concat_tables_column (t1 t2 : Table) (args : ConcatArgs) (c : String) :
    (concat_tables t1 t2 args).column c = t1.column c ++ t2.column c := by
  rw [concat_tables_eq]
  simp [Table.column]

/-- Unfolding a successful `merge_results` call: the output is the
concatenated table filtered by the first-occurrence mask of its `_rowid`
column. -/
theorem merge_results_ok (r : Reranker) (t1 t2 : Table) (out : Table)
    (hm : r.merge_results t1 t2 = Except.ok out) :
    out = Table.mk (concat_tables t1 t2 r.concat_tables_args).cols
      (filterMask (concat_tables t1 t2 r.concat_tables_args).rows
        (firstOccMask ((concat_tables t1 t2 r.concat_tables_args).column "_rowid"))) := by
  unfold Reranker.merge_results at hm
  split at hm
  · exact (Except.ok.inj hm).symm
  · exact absurd hm (by simp)

/-- A fully explicit form of `merge_results_ok`, with the concatenation
spelled out. -/
theorem merge_results_ok_explicit (r : Reranker) (t1 t2 : Table) (out : Table)
    (hm : r.merge_results t1 t2 = Except.ok out) :
    out = Table.mk (t1.cols ++ t2.cols.filter (fun c => decide (c ∉ t1.cols)))
      (filterMask (t1.rows ++ t2.rows)
        (firstOccMask ((t1.rows ++ t2.rows).map (fun row => getCell row "_rowid")))) := by
  rw [merge_results_ok r t1 t2 out hm, concat_tables_eq]
  rfl

/-- When the vector-results table has the `_rowid` column, `merge_results`
succeeds, producing the concatenated table filtered to first occurrences of
each `_rowid` value. -/
theorem merge_results_isOk (r : Reranker) (t1 t2 : Table)
    (h : "_rowid" ∈ t1.cols) :
    r.merge_results t1 t2
      = Except.ok (Table.mk (t1.cols ++ t2.cols.filter (fun c => decide (c ∉ t1.cols)))
          (filterMask (t1.rows ++ t2.rows)
            (firstOccMask ((t1.rows ++ t2.rows).map (fun row => getCell row "_rowid"))))) := by
  have hmem : "_rowid" ∈ (concat_tables t1 t2 r.concat_tables_args).cols := by
    rw [concat_tables_eq]
    exact List.mem_append_left _ h
  unfold Reranker.merge_results
  rw [if_pos hmem, concat_tables_eq]
  rfl

/-- The schema of a successful merge is the union schema of the inputs. -/
theorem merge_results_cols (r : Reranker) (t1 t2 : Table) (out : Table)
    (hm : r.merge_results t1 t2 = Except.ok out) :
    out.cols = t1.cols ++ t2.cols.filter (fun c => decide (c ∉ t1.cols)) := by
  rw [merge_results_ok_explicit r t1 t2 out hm]

/- The claims. -/

/-- Claim C1: for every pair of input tables that both contain the
`_rowid` column, `merge_results` succeeds and returns a table in which no
two rows share a `_rowid` value, every `_rowid` value present in either
input appears in exactly one output row, and every output `_rowid` value
comes from one of the inputs. -/
theorem c1_merge_results_dedup (r : Reranker) (t1 t2 : Table)
    (h1 : "_rowid" ∈ t1.cols) (h2 : "_rowid" ∈ t2.cols) :
    ∃ out, r.merge_results t1 t2 = Except.ok out
      ∧ (out.column "_rowid").Nodup
      ∧ (∀ v, (v ∈ t1.column "_rowid" ∨ v ∈ t2.column "_rowid") →
          (out.column "_rowid").count v = 1)
      ∧ (∀ v, v ∈ out.column "_rowid" →
          v ∈ t1.column "_rowid" ∨ v ∈ t2.column "_rowid") := by
  refine ⟨_, merge_results_isOk r t1 t2 h1, ?_, ?_, ?_⟩
  · show ((filterMask (t1.rows ++ t2.rows)
        (firstOccMask ((t1.rows ++ t2.rows).map (fun row => getCell row "_rowid")))).map
          (fun row => getCell row "_rowid")).Nodup
    rw [map_filterMask, List.nodup_iff_count_le_one]
    intro v
    rw [count_filterMask_firstOcc]
    split <;> omega
  · intro v hv
    have hv' : v ∈ List.map (fun row => getCell row "_rowid") t1.rows
        ∨ v ∈ List.map (fun row => getCell row "_rowid") t2.rows := hv
    show ((filterMask (t1.rows ++ t2.rows)
        (firstOccMask ((t1.rows ++ t2.rows).map (fun row => getCell row "_rowid")))).map
          (fun row => getCell row "_rowid")).count v = 1
    rw [map_filterMask, count_filterMask_firstOcc, List.map_append,
      if_pos (List.mem_append.mpr hv')]
  · intro v hv
    have hv' : v ∈ (filterMask (t1.rows ++ t2.rows)
        (firstOccMask ((t1.rows ++ t2.rows).map (fun row => getCell row "_rowid")))).map
          (fun row => getCell row "_rowid") := hv
    rw [map_filterMask] at hv'
    have hmem := (filterMask_sublist _ _).subset hv'
    rw [List.map_append] at hmem
    exact List.mem_append.mp hmem

/-- Claim C1, instantiated: the sample tables with ids [1,2,3] and
[2,3,4] merge with pairwise-distinct ids, each id appearing once. -/
theorem c1_merge_results_dedup_witness :
    ∃ out, reranker0.merge_results vres fres = Except.ok out
      ∧ (out.column "_rowid").Nodup
      ∧ (∀ v, (v ∈ vres.column "_rowid" ∨ v ∈ fres.column "_rowid") →
          (out.column "_rowid").count v = 1)
      ∧ (∀ v, v ∈ out.column "_rowid" →
          v ∈ vres.column "_rowid" ∨ v ∈ fres.column "_rowid") :=
  c1_merge_results_dedup reranker0 vres fres (by decide) (by decide)

/-- Claim C2: the rows of a successful merge that carry a given `_rowid`
value are exactly the first row with that value in the concatenation of
`vector_results` followed by `fts_results`; in particular, for a value
present in `vector_results`, the retained row is the first matching row of
`vector_results`. -/
theorem c2_merge_results_keeps_first (r : Reranker) (t1 t2 : Table)
    (h1 : "_rowid" ∈ t1.cols) (h2 : "_rowid" ∈ t2.cols) :
    ∃ out, r.merge_results t1 t2 = Except.ok out
      ∧ (∀ v, out.rows.filter (fun row => decide (getCell row "_rowid" = v))
          = ((t1.rows ++ t2.rows).find?
              (fun row => decide (getCell row "_rowid" = v))).toList)
      ∧ (∀ v, v ∈ t1.column "_rowid" →
          out.rows.filter (fun row => decide (getCell row "_rowid" = v))
            = (t1.rows.find? (fun row => decide (getCell row "_rowid" = v))).toList) := by
  refine ⟨_, merge_results_isOk r t1 t2 h1, ?_, ?_⟩
  · intro v
    exact filter_filterMask_firstOcc (fun row => getCell row "_rowid") (t1.rows ++ t2.rows) v
  · intro v hv
    have hsome : (t1.rows.find? (fun row => decide (getCell row "_rowid" = v))).isSome := by
      rw [List.find?_isSome]
      obtain ⟨row, hrow, hkey⟩ := List.mem_map.mp hv
      exact ⟨row, hrow, by simp [hkey]⟩
    have heq := filter_filterMask_firstOcc (fun row => getCell row "_rowid")
      (t1.rows ++ t2.rows) v
    rw [find?_append_of_isSome _ t1.rows t2.rows hsome] at heq
    exact heq

/-- Claim C2, instantiated: on the sample tables, the retained row for
id 2 is the `vector_results` row with payload v2. -/
theorem c2_merge_results_keeps_first_witness :
    ∃ out, reranker0.merge_results vres fres = Except.ok out
      ∧ (∀ v, out.rows.filter (fun row => decide (getCell row "_rowid" = v))
          = ((vres.rows ++ fres.rows).find?
              (fun row => decide (getCell row "_rowid" = v))).toList)
      ∧ (∀ v, v ∈ vres.column "_rowid" →
          out.rows.filter (fun row => decide (getCell row "_rowid" = v))
            = (vres.rows.find? (fun row => decide (getCell row "_rowid" = v))).toList) :=
  c2_merge_results_keeps_first reranker0 vres fres (by decide) (by decide)

/-- Claim C3: construction fails with the `ValueError` for every
`return_score` outside `{"relevance", "all"}` (strings or `None`), and for
the two valid values it succeeds with the stored option equal to the value
passed in. -/
theorem c3_init_validation (arrow_major : Nat) :
    (∀ arg : PyStrOpt, arg ∉ [PyStrOpt.s "relevance", PyStrOpt.s "all"] →
      Reranker.init arg arrow_major
        = Except.error (PyError.valueError "score must be either 'relevance' or 'all'"))
    ∧ (∀ arg : PyStrOpt, arg ∈ [PyStrOpt.s "relevance", PyStrOpt.s "all"] →
      ∃ rk, Reranker.init arg arrow_major = Except.ok rk ∧ rk.score = arg) := by
  constructor
  · intro arg h
    unfold Reranker.init
    rw [if_pos h]
  · intro arg h
    have hok : Reranker.init arg arrow_major = Except.ok (Reranker.mk arg
        (if arrow_major ≤ 13 then ConcatArgs.promote else ConcatArgs.promoteDefault)) := by
      unfold Reranker.init
      rw [if_neg (fun hn => hn h)]
    exact ⟨_, hok, rfl⟩

/-- Claim C3, instantiated at `"foo"`, `""`, `None`, `"relevance"` and
`"all"` on pyarrow major 14. -/
theorem c3_init_validation_witness :
    Reranker.init (PyStrOpt.s "foo") 14
        = Except.error (PyError.valueError "score must be either 'relevance' or 'all'")
    ∧ Reranker.init (PyStrOpt.s "") 14
        = Except.error (PyError.valueError "score must be either 'relevance' or 'all'")
    ∧ Reranker.init PyStrOpt.pyNone 14
        = Except.error (PyError.valueError "score must be either 'relevance' or 'all'")
    ∧ (∃ rk, Reranker.init (PyStrOpt.s "relevance") 14 = Except.ok rk
        ∧ rk.score = PyStrOpt.s "relevance")
    ∧ (∃ rk, Reranker.init (PyStrOpt.s "all") 14 = Except.ok rk
        ∧ rk.score = PyStrOpt.s "all") :=
  ⟨(c3_init_validation 14).1 _ (by decide),
   (c3_init_validation 14).1 _ (by decide),
   (c3_init_validation 14).1 _ (by decide),
   (c3_init_validation 14).2 _ (by decide),
   (c3_init_validation 14).2 _ (by decide)⟩

/-- Claim C4: without an override, `rerank_vector` and `rerank_fts` fail
with a `NotImplementedError` naming the concrete class and the missing
method, for every query and input table. -/
theorem c4_optional_methods_unsupported (cls query : String) (t : Table) :
    Reranker.rerank_vector cls query t
      = Except.error (PyError.notImplementedError
          (cls ++ " does not implement rerank_vector"))
    ∧ Reranker.rerank_fts cls query t
      = Except.error (PyError.notImplementedError
          (cls ++ " does not implement rerank_fts")) :=
  ⟨rfl, rfl⟩

/-- Claim C4, instantiated at the base class name, a sample query and the
sample vector table. -/
theorem c4_optional_methods_unsupported_witness :
    Reranker.rerank_vector "Reranker" "hello" vres
      = Except.error (PyError.notImplementedError
          ("Reranker" ++ " does not implement rerank_vector"))
    ∧ Reranker.rerank_fts "Reranker" "hello" vres
      = Except.error (PyError.notImplementedError
          ("Reranker" ++ " does not implement rerank_fts")) :=
  c4_optional_methods_unsupported "Reranker" "hello" vres

/-- Claim C5: a subclass that does not override `rerank_hybrid` fails to
instantiate with a `TypeError` (in particular the abstract base itself),
while a subclass that does override it instantiates. -/
theorem c5_rerank_hybrid_mandatory :
    (∀ c : SubclassDef, "rerank_hybrid" ∉ c.overriddenMethods →
      instantiateSubclass c = Except.error (PyError.typeError
        ("Can't instantiate abstract class " ++ c.name
          ++ " with abstract method rerank_hybrid")))
    ∧ instantiateSubclass (SubclassDef.mk "Reranker" [])
        = Except.error (PyError.typeError
            ("Can't instantiate abstract class Reranker with abstract method rerank_hybrid"))
    ∧ (∀ c : SubclassDef, "rerank_hybrid" ∈ c.overriddenMethods →
      instantiateSubclass c = Except.ok c) := by
  refine ⟨?_, ?_, ?_⟩
  · intro c h
    have hcond : ¬ (Reranker.abstractmethods.all
        (fun m => decide (m ∈ c.overriddenMethods)) = true) := by
      simp [Reranker.abstractmethods, h]
    unfold instantiateSubclass
    rw [if_neg hcond]
  · decide
  · intro c h
    have hcond : Reranker.abstractmethods.all
        (fun m => decide (m ∈ c.overriddenMethods)) = true := by
      simp [Reranker.abstractmethods, h]
    unfold instantiateSubclass
    rw [if_pos hcond]

/-- Claim C5, instantiated: a subclass overriding only `rerank_vector`
fails to instantiate; one overriding `rerank_hybrid` instantiates. -/
theorem c5_rerank_hybrid_mandatory_witness :
    instantiateSubclass (SubclassDef.mk "MyReranker" ["rerank_vector"])
        = Except.error (PyError.typeError
            ("Can't instantiate abstract class "
              ++ (SubclassDef.mk "MyReranker" ["rerank_vector"]).name
              ++ " with abstract method rerank_hybrid"))
    ∧ instantiateSubclass (SubclassDef.mk "MyHybrid" ["rerank_hybrid"])
        = Except.ok (SubclassDef.mk "MyHybrid" ["rerank_hybrid"]) :=
  ⟨c5_rerank_hybrid_mandatory.1 (SubclassDef.mk "MyReranker" ["rerank_vector"]) (by decide),
   c5_rerank_hybrid_mandatory.2.2 (SubclassDef.mk "MyHybrid" ["rerank_hybrid"]) (by decide)⟩

/-- Claim C6: on the sample tables with ids [1,2,3] and [2,3,4],
`merge_results` returns exactly 4 rows with ids 1,2,3,4 where the rows for
ids 1–3 (so in particular 2 and 3) are the `vector_results` rows, witnessed
by the payload column. -/
theorem c6_concrete_scenario :
    reranker0.merge_results vres fres = Except.ok merged1234
    ∧ merged1234.rows.length = 4
    ∧ merged1234.column "_rowid" = [Value.int 1, Value.int 2, Value.int 3, Value.int 4]
    ∧ merged1234.rows.take 3 = vres.rows
    ∧ merged1234.column "payload"
        = [Value.str "v1", Value.str "v2", Value.str "v3", Value.str "f4"] := by
  decide

/-- Claim C7: merging two empty tables of the same schema yields the empty
table (no error); merging any table with an empty FTS table of the same
schema succeeds whenever the schema has `_rowid`, keeps the schema, keeps
a subsequence of the original rows, and returns the table unchanged when
its `_rowid` values are already distinct. -/
theorem c7_empty_fts_identity (r : Reranker) (t : Table) (h : "_rowid" ∈ t.cols) :
    r.merge_results (Table.mk t.cols []) (Table.mk t.cols [])
        = Except.ok (Table.mk t.cols [])
    ∧ (∃ out, r.merge_results t (Table.mk t.cols []) = Except.ok out
        ∧ out.cols = t.cols
        ∧ out.rows.Sublist t.rows
        ∧ ((t.column "_rowid").Nodup → out = t)) := by
  have hfilter : t.cols.filter (fun c => decide (c ∉ t.cols)) = [] := by
    rw [List.filter_eq_nil_iff]
    intro c hc
    simp [hc]
  constructor
  · rw [merge_results_isOk r (Table.mk t.cols []) (Table.mk t.cols []) h]
    simp [hfilter, filterMask_nil]
  · refine ⟨_, merge_results_isOk r t (Table.mk t.cols []) h, ?_, ?_, ?_⟩
    · show t.cols ++ List.filter _ _ = t.cols
      rw [hfilter, List.append_nil]
    · have hsub := filterMask_sublist (t.rows ++ ([] : List Row))
        (firstOccMask ((t.rows ++ ([] : List Row)).map (fun row => getCell row "_rowid")))
      simpa using hsub
    · intro hnd
      show Table.mk _ (filterMask (t.rows ++ []) _) = t
      rw [List.append_nil, hfilter, List.append_nil]
      have hmask := firstOccMaskAux_of_nodup
        (t.rows.map (fun row => getCell row "_rowid")) [] hnd
        (fun x _ => List.not_mem_nil x)
      rw [firstOccMask, hmask, List.length_map, filterMask_replicate_true]

/-- Claim C7, instantiated at the sample vector table (whose ids are
distinct): the merge with an empty FTS table returns it unchanged. -/
theorem c7_empty_fts_identity_witness :
    reranker0.merge_results (Table.mk vres.cols []) (Table.mk vres.cols [])
        = Except.ok (Table.mk vres.cols [])
    ∧ (∃ out, reranker0.merge_results vres (Table.mk vres.cols []) = Except.ok out
        ∧ out.cols = vres.cols
        ∧ out.rows.Sublist vres.rows
        ∧ ((vres.column "_rowid").Nodup → out = vres)) :=
  c7_empty_fts_identity reranker0 vres (by decide)

/-- Claim C8: `merge_results` is score-agnostic — two rerankers
constructed with `return_score="relevance"` and `return_score="all"` (same
pyarrow version) produce identical outputs on the same inputs, and every
column of a successful merge already exists in one of the inputs. -/
theorem c8_merge_score_agnostic (m : Nat) (r1 r2 : Reranker) (t1 t2 : Table)
    (h1 : Reranker.init (PyStrOpt.s "relevance") m = Except.ok r1)
    (h2 : Reranker.init (PyStrOpt.s "all") m = Except.ok r2) :
    r1.merge_results t1 t2 = r2.merge_results t1 t2
    ∧ (∀ out, r1.merge_results t1 t2 = Except.ok out →
        ∀ c, c ∈ out.cols → c ∈ t1.cols ∨ c ∈ t2.cols) := by
  have e1 : r1 = Reranker.mk (PyStrOpt.s "relevance")
      (if m ≤ 13 then ConcatArgs.promote else ConcatArgs.promoteDefault) := by
    unfold Reranker.init at h1
    rw [if_neg (by decide)] at h1
    exact (Except.ok.inj h1).symm
  have e2 : r2 = Reranker.mk (PyStrOpt.s "all")
      (if m ≤ 13 then ConcatArgs.promote else ConcatArgs.promoteDefault) := by
    unfold Reranker.init at h2
    rw [if_neg (by decide)] at h2
    exact (Except.ok.inj h2).symm
  subst e1
  subst e2
  constructor
  · rfl
  · intro out hout c hc
    rw [merge_results_cols _ t1 t2 out hout] at hc
    rcases List.mem_append.mp hc with hL | hR
    · exact Or.inl hL
    · exact Or.inr (List.mem_filter.mp hR).1

/-- Claim C8, instantiated on the sample tables at pyarrow major 14: the
two rerankers merge identically and the output columns come from the
inputs. -/
theorem c8_merge_score_agnostic_witness :
    reranker0.merge_results vres fres
      = (Reranker.mk (PyStrOpt.s "all") ConcatArgs.promoteDefault).merge_results vres fres
    ∧ (∀ c, c ∈ merged1234.cols → c ∈ vres.cols ∨ c ∈ fres.cols) :=
  ⟨(c8_merge_score_agnostic 14 reranker0
      (Reranker.mk (PyStrOpt.s "all") ConcatArgs.promoteDefault) vres fres
      (by decide) (by decide)).1,
   (c8_merge_score_agnostic 14 reranker0
      (Reranker.mk (PyStrOpt.s "all") ConcatArgs.promoteDefault) vres fres
      (by decide) (by decide)).2 merged1234 (by decide)⟩

/-- Claim C9: the rows of a successful merge appear in the order of the
concatenation of `vector_results` followed by `fts_results`: the output is
a subsequence of that concatenation, and splits as retained vector rows
(in their original order) followed by retained FTS rows (in their original
order). -/
theorem c9_merge_results_order (r : Reranker) (t1 t2 : Table)
    (h1 : "_rowid" ∈ t1.cols) (h2 : "_rowid" ∈ t2.cols) :
    ∃ out, r.merge_results t1 t2 = Except.ok out
      ∧ out.rows.Sublist (t1.rows ++ t2.rows)
      ∧ ∃ u w, out.rows = u ++ w ∧ u.Sublist t1.rows ∧ w.Sublist t2.rows := by
  refine ⟨_, merge_results_isOk r t1 t2 h1, filterMask_sublist _ _, ?_⟩
  exact ⟨_, _, filterMask_append t1.rows t2.rows _,
    filterMask_sublist _ _, filterMask_sublist _ _⟩

/-- Claim C9, instantiated on the sample tables. -/
theorem c9_merge_results_order_witness :
    ∃ out, reranker0.merge_results vres fres = Except.ok out
      ∧ out.rows.Sublist (vres.rows ++ fres.rows)
      ∧ ∃ u w, out.rows = u ++ w ∧ u.Sublist vres.rows ∧ w.Sublist fres.rows :=
  c9_merge_results_order reranker0 vres fres (by decide) (by decide)

/-- Claim C10: constructing with the `return_score` argument omitted uses
the default `"relevance"`: construction succeeds and the stored option is
`"relevance"`. -/
theorem c10_default_return_score (m : Nat) :
    ∃ rk, Reranker.init_default m = Except.ok rk
      ∧ rk.score = PyStrOpt.s "relevance" := by
  have hok : Reranker.init_default m = Except.ok (Reranker.mk (PyStrOpt.s "relevance")
      (if m ≤ 13 then ConcatArgs.promote else ConcatArgs.promoteDefault)) := by
    unfold Reranker.init_default Reranker.init
    rw [if_neg (by decide)]
  exact ⟨_, hok, rfl⟩

/-- Claim C10, instantiated at pyarrow major 14. -/
theorem c10_default_return_score_witness :
    ∃ rk, Reranker.init_default 14 = Except.ok rk
      ∧ rk.score = PyStrOpt.s "relevance" :=
  c10_default_return_score 14

end Rerankers
